import Mathlib

/-!
Verification development for the tagged-value deserializer (`_raw_query.py`)
and the binary cache manager (`binaries/binaries.py`) of a Prisma database
client runtime.

The Python code is shallowly embedded: dynamically-typed values become the
inductive type `Value`, Python exceptions become the `Except Err` monad,
`datetime.datetime` becomes `PyDateTime`, `decimal.Decimal` becomes
`PyDecimal`, and the process environment becomes a function
`String → Option String`.  Recursive functions over `Value` are written with
an explicit fuel argument (structural recursion on the fuel) together with a
wrapper that supplies `valueSize` of the input as fuel; an adequacy lemma shows
the fuel can never run out for the wrapper, so `Err.fuelExhausted` is a pure
modelling artefact.
-/

/-- Errors of the embedded code.  `malformedTag` models the `KeyError`
raised when a tagged leaf lacks its `prisma__type`/`prisma__value` sub-field
(the spec calls this `MalformedTagError`); `conversionError` models the
`ValueError`/`TypeError` raised by a converter on an unparsable literal
(the spec calls this `ConversionError`); `fuelExhausted` is a modelling
artefact of the fuelled recursion and is proved unreachable. -/
inductive Err where
  | malformedTag : Err
  | conversionError : Err
  | fuelExhausted : Err
deriving DecidableEq, Repr

/-- Model of Python `datetime.datetime`: wall-clock fields plus an optional
UTC offset in minutes (`tzOffsetMinutes = none` models a naive datetime,
i.e. `tzinfo is None`). -/
structure PyDateTime where
  year : Nat
  month : Nat
  day : Nat
  hour : Nat
  minute : Nat
  second : Nat
  microsecond : Nat
  tzOffsetMinutes : Option Int
deriving DecidableEq, Repr

/-- Model of Python `decimal.Decimal` (finite values): a sign, the
coefficient digits exactly as Python stores them (`str(int(intpart +
fracpart))`, so without leading zeros, and `"0"` for a zero coefficient),
and the decimal exponent. -/
structure PyDecimal where
  sign : Bool
  digits : List Char
  exp : Int
deriving DecidableEq, Repr

/-- Universal value type standing in for Python's dynamic values: the
JSON-compatible wire values (`null`, booleans, numbers, strings, lists,
dicts) plus the rich native types produced by the deserializer
(`datetime.datetime`, `decimal.Decimal`, the `Base64` bytes wrapper).
Dicts are association lists in insertion order, mirroring Python dicts. -/
inductive Value where
  | vNull : Value
  | vBool : Bool → Value
  | vInt : Int → Value
  | vStr : String → Value
  | vList : List Value → Value
  | vObj : List (String × Value) → Value
  | vDateTime : PyDateTime → Value
  | vDecimal : PyDecimal → Value
  | vBytes : List Nat → Value

/-- Python `isinstance(value, str)`. -/
def isVStr : Value → Bool
  | .vStr _ => true
  | _ => false

mutual

/-- Structural size of a `Value`, used as fuel for the recursive functions
over values (the automatically generated `SizeOf` instance of the nested
inductive has no executable code). -/
def valueSize : Value → Nat
  | .vList xs => 1 + valueSizeList xs
  | .vObj kvs => 1 + valueSizeObj kvs
  | _ => 1

/-- Size of a list of values. -/
def valueSizeList : List Value → Nat
  | [] => 1
  | x :: xs => 1 + valueSize x + valueSizeList xs

/-- Size of a field list of a dict value. -/
def valueSizeObj : List (String × Value) → Nat
  | [] => 1
  | kv :: kvs => 1 + valueSize kv.2 + valueSizeObj kvs

end

/-! ## Digit and string helpers -/

/-- Numeric value of a decimal digit character. -/
def digitVal (c : Char) : Nat := c.toNat - 48

/-- Read one decimal digit from the front of a character list. -/
def readDigit : List Char → Option (Nat × List Char)
  | c :: rest => if c.isDigit then some (digitVal c, rest) else none
  | [] => none

/-- Read exactly two decimal digits from the front of a character list. -/
def readDigits2 (cs : List Char) : Option (Nat × List Char) :=
  match readDigit cs with
  | none => none
  | some (a, r1) =>
      match readDigit r1 with
      | none => none
      | some (b, r2) => some (a * 10 + b, r2)

/-- Read exactly four decimal digits from the front of a character list. -/
def readDigits4 (cs : List Char) : Option (Nat × List Char) :=
  match readDigits2 cs with
  | none => none
  | some (a, r1) =>
      match readDigits2 r1 with
      | none => none
      | some (b, r2) => some (a * 100 + b, r2)

/-- Gregorian leap-year test, as in Python's `calendar.isleap`. -/
def isLeapYear (y : Nat) : Bool :=
  (y % 4 == 0 && y % 100 != 0) || y % 400 == 0

/-- Days in a month, as validated by `datetime.date`. -/
def daysInMonth (y m : Nat) : Nat :=
  if m == 2 then (if isLeapYear y then 29 else 28)
  else if m == 4 || m == 6 || m == 9 || m == 11 then 30
  else 31

/-! ## Model of `datetime.fromisoformat`

A faithful model of `datetime.datetime.fromisoformat` on the formats the
deserializer feeds it: `YYYY-MM-DD`, optionally followed by a single
separator character (any character, as in CPython's parser) and a time
`HH:MM[:SS[.f{1..6}]]`, optionally followed by a UTC offset `+HH:MM` /
`-HH:MM` or `Z` (accepted by Python ≥ 3.11).  Field ranges are validated as
Python does; offset-with-seconds and fractional offsets are outside the
formats exercised here and are rejected. -/

/-- Parse the optional timezone suffix: nothing, `Z`, or `±HH:MM`.
Returns the offset in minutes. -/
def parseTzSuffix : List Char → Option (Option Int)
  | [] => some none
  | ['Z'] => some (some 0)
  | '+' :: rest =>
      match readDigits2 rest with
      | some (th, r1) =>
          match r1 with
          | ':' :: r2 =>
              match readDigits2 r2 with
              | some (tm, []) =>
                  if th ≤ 23 && tm ≤ 59 then some (some ((th * 60 + tm : Nat) : Int)) else none
              | _ => none
          | _ => none
      | none => none
  | '-' :: rest =>
      match readDigits2 rest with
      | some (th, r1) =>
          match r1 with
          | ':' :: r2 =>
              match readDigits2 r2 with
              | some (tm, []) =>
                  if th ≤ 23 && tm ≤ 59 then some (some (-((th * 60 + tm : Nat) : Int))) else none
              | _ => none
          | _ => none
      | none => none
  | _ => none

/-- Parse an optional fractional-seconds part `.f{1..6}` (or `,`), returning
the microseconds and the remaining characters. -/
def parseFrac : List Char → Option (Nat × List Char)
  | '.' :: rest =>
      let ds := rest.takeWhile Char.isDigit
      let rem := rest.dropWhile Char.isDigit
      if 1 ≤ ds.length && ds.length ≤ 6 then
        some ((ds.foldl (fun acc c => acc * 10 + digitVal c) 0) * 10 ^ (6 - ds.length), rem)
      else
        none
  | ',' :: rest =>
      let ds := rest.takeWhile Char.isDigit
      let rem := rest.dropWhile Char.isDigit
      if 1 ≤ ds.length && ds.length ≤ 6 then
        some ((ds.foldl (fun acc c => acc * 10 + digitVal c) 0) * 10 ^ (6 - ds.length), rem)
      else
        none
  | rest => some (0, rest)

/-- Parse the time-of-day portion `HH:MM[:SS[.frac]][tz]`. -/
def parseTimePart (cs : List Char) : Option (Nat × Nat × Nat × Nat × Option Int) :=
  match readDigits2 cs with
  | none => none
  | some (hh, r1) =>
      match r1 with
      | ':' :: r2 =>
          match readDigits2 r2 with
          | none => none
          | some (mi, r3) =>
              match r3 with
              | ':' :: r4 =>
                  match readDigits2 r4 with
                  | none => none
                  | some (ss, r5) =>
                      match parseFrac r5 with
                      | none => none
                      | some (us, r6) =>
                          match parseTzSuffix r6 with
                          | none => none
                          | some tz =>
                              if hh ≤ 23 && mi ≤ 59 && ss ≤ 59 then
                                some (hh, mi, ss, us, tz)
                              else
                                none
              | r4 =>
                  match parseTzSuffix r4 with
                  | none => none
                  | some tz =>
                      if hh ≤ 23 && mi ≤ 59 then some (hh, mi, 0, 0, tz) else none
      | _ => none

/-- Character-list core of the `datetime.fromisoformat` model. -/
def fromisoformatChars (cs : List Char) : Option PyDateTime :=
  match readDigits4 cs with
  | none => none
  | some (y, r1) =>
      match r1 with
      | '-' :: r2 =>
          match readDigits2 r2 with
          | none => none
          | some (m, r3) =>
              match r3 with
              | '-' :: r4 =>
                  match readDigits2 r4 with
                  | none => none
                  | some (d, r5) =>
                      if 1 ≤ y && 1 ≤ m && m ≤ 12 && 1 ≤ d && d ≤ daysInMonth y m then
                        match r5 with
                        | [] => some ⟨y, m, d, 0, 0, 0, 0, none⟩
                        | _sep :: tr =>
                            match parseTimePart tr with
                            | none => none
                            | some (hh, mi, ss, us, tz) => some ⟨y, m, d, hh, mi, ss, us, tz⟩
                      else
                        none
              | _ => none
      | _ => none

/-- Model of `datetime.datetime.fromisoformat`. -/
def fromisoformat (s : String) : Option PyDateTime :=
  fromisoformatChars s.data

/-! ## Model of `decimal.Decimal`

`Decimal(value)` for a finite numeric literal: optional sign, digits with an
optional decimal point, optional exponent part.  Python additionally strips
whitespace and underscores before parsing; those inputs do not occur on the
wire and are rejected here.  The coefficient is stored as
`str(int(intpart + fracpart))`, i.e. with leading zeros removed and `"0"`
for an all-zero coefficient, exactly as `_pydecimal` does. -/

/-- Natural number denoted by a list of decimal digit characters. -/
def natFromDigits (cs : List Char) : Nat :=
  cs.foldl (fun a c => a * 10 + digitVal c) 0

/-- Parse an optionally signed, non-empty run of digits into an integer. -/
def parseSignedInt (cs : List Char) : Option Int :=
  match cs with
  | '-' :: r => if !r.isEmpty && r.all Char.isDigit then some (-(natFromDigits r : Int)) else none
  | '+' :: r => if !r.isEmpty && r.all Char.isDigit then some ((natFromDigits r : Nat) : Int) else none
  | r => if !r.isEmpty && r.all Char.isDigit then some ((natFromDigits r : Nat) : Int) else none

/-- Parse the optional exponent part of a decimal literal (`e`/`E` followed
by a signed integer); an empty remainder means exponent `0`. -/
def parseExpPart : List Char → Option Int
  | [] => some 0
  | 'e' :: r => parseSignedInt r
  | 'E' :: r => parseSignedInt r
  | _ => none

/-- The coefficient digits as Python stores them: leading zeros removed,
with `"0"` kept for an all-zero (or empty) digit string. -/
def coefficientDigits (cs : List Char) : List Char :=
  let r := cs.dropWhile (fun c => c == '0')
  if r.isEmpty then ['0'] else r

/-- Sign-stripped core of the `Decimal` constructor model: digits, optional
point and fraction digits, optional exponent part; at least one mantissa
digit is required. -/
def parseDecimalCore (cs1 : List Char) (sign : Bool) : Option PyDecimal :=
  let ip := cs1.takeWhile Char.isDigit
  let r1 := cs1.dropWhile Char.isDigit
  match r1 with
  | '.' :: r =>
      let fp := r.takeWhile Char.isDigit
      let r2 := r.dropWhile Char.isDigit
      if ip.length + fp.length == 0 then none
      else
        match parseExpPart r2 with
        | none => none
        | some e => some ⟨sign, coefficientDigits (ip ++ fp), e - fp.length⟩
  | r1v =>
      if ip.length == 0 then none
      else
        match parseExpPart r1v with
        | none => none
        | some e => some ⟨sign, coefficientDigits ip, e⟩

/-- Character-list core of the `Decimal` constructor model: an optional
sign, then the unsigned core. -/
def parseDecimalChars : List Char → Option PyDecimal
  | [] => parseDecimalCore [] false
  | c :: r =>
      if c = '-' then parseDecimalCore r true
      else if c = '+' then parseDecimalCore r false
      else parseDecimalCore (c :: r) false

/-- Model of the `Decimal` constructor on string literals. -/
def parseDecimal (s : String) : Option PyDecimal :=
  parseDecimalChars s.data

/-- Decimal digits of a natural number, via `Nat.repr`. -/
def natToChars (n : Nat) : List Char := (Nat.repr n).data

/-- Unsigned body of `str(Decimal)` (`_pydecimal.Decimal.__str__` for
finite values): positional notation when `exp ≤ 0` and the adjusted
exponent is above `-6`, scientific notation otherwise. -/
def pyDecimalBodyChars (d : PyDecimal) : List Char :=
  let leftdigits : Int := d.exp + d.digits.length
  if d.exp ≤ 0 ∧ leftdigits > -6 then
    if d.exp = 0 then d.digits
    else if leftdigits > 0 then
      d.digits.take leftdigits.toNat ++ '.' :: d.digits.drop leftdigits.toNat
    else
      '0' :: '.' :: (List.replicate (-leftdigits).toNat '0' ++ d.digits)
  else
    let ipart := d.digits.take 1
    let fpart := if d.digits.length == 1 then [] else '.' :: d.digits.drop 1
    ipart ++ fpart ++ 'E' :: (if leftdigits - 1 < 0 then '-' else '+') :: natToChars (leftdigits - 1).natAbs

/-- Character-list form of `str(Decimal)`: the unsigned body with a `-`
prefix for negative values. -/
def pyDecimalStrChars (d : PyDecimal) : List Char :=
  if d.sign then '-' :: pyDecimalBodyChars d else pyDecimalBodyChars d

/-- Model of `str(Decimal)`. -/
def pyDecimalStr (d : PyDecimal) : String :=
  (pyDecimalStrChars d).asString

/-- Whether an integer-part digit string has no redundant leading zero
(`"0"` itself is allowed). -/
def noRedundantLeadingZero : List Char → Bool
  | [] => false
  | ['0'] => true
  | c :: _ => !(c == '0')

/-- Sign-stripped core of `isCanonicalDecimalString`. -/
def isCanonicalUnsignedDecimal (cs1 : List Char) : Bool :=
  let ip := cs1.takeWhile Char.isDigit
  let rest := cs1.dropWhile Char.isDigit
  match rest with
  | [] => noRedundantLeadingZero ip
  | rc :: fp =>
      if rc = '.' then
        if fp.isEmpty || !(fp.all Char.isDigit) then false
        else
          match ip with
          | ['0'] =>
              let k := (fp.takeWhile (fun c => c == '0')).length
              if k == fp.length then decide (fp.length ≤ 6) else decide (k ≤ 5)
          | c :: _ => !(c == '0')
          | [] => false
      else false

/-- Character-list core of `isCanonicalDecimalString`: an optional `-`
sign, then the unsigned canonical form. -/
def isCanonicalDecimalChars : List Char → Bool
  | [] => isCanonicalUnsignedDecimal []
  | c :: r =>
      if c = '-' then isCanonicalUnsignedDecimal r
      else isCanonicalUnsignedDecimal (c :: r)

/-- A decimal literal is canonical when it is exactly what `str(Decimal)`
prints for its value: positional notation, optional leading `-`, no
redundant leading zeros, and (for magnitudes below one) an adjusted
exponent above `-6` so the printer stays in positional notation. -/
def isCanonicalDecimalString (s : String) : Bool :=
  isCanonicalDecimalChars s.data

/-! ## Model of `Base64.fromb64` and `json.dumps` -/

/-- Value of a base64 alphabet character. -/
def b64CharVal (c : Char) : Option Nat :=
  if 'A' ≤ c ∧ c ≤ 'Z' then some (c.toNat - 65)
  else if 'a' ≤ c ∧ c ≤ 'z' then some (c.toNat - 97 + 26)
  else if '0' ≤ c ∧ c ≤ '9' then some (c.toNat - 48 + 52)
  else if c = '+' then some 62
  else if c = '/' then some 63
  else none

/-- Decode base64 four-character groups into bytes, with `=` padding only in
the final group. -/
def b64DecodeGroups : List Char → Option (List Nat)
  | [] => some []
  | a :: b :: c :: d :: rest =>
      match b64CharVal a, b64CharVal b with
      | some va, some vb =>
          if c == '=' then
            if d == '=' && rest.isEmpty then some [va * 4 + vb / 16] else none
          else
            match b64CharVal c with
            | none => none
            | some vc =>
                if d == '=' then
                  if rest.isEmpty then some [va * 4 + vb / 16, (vb % 16) * 16 + vc / 4] else none
                else
                  match b64CharVal d with
                  | none => none
                  | some vd =>
                      match b64DecodeGroups rest with
                      | none => none
                      | some bs =>
                          some ((va * 4 + vb / 16) :: ((vb % 16) * 16 + vc / 4) :: ((vc % 4) * 64 + vd) :: bs)
      | _, _ => none
  | _ => none

/-- Modelled from the spec: `Base64.fromb64` lives in `fields.py`, which is
not among the analyzed sources; the spec says the `bytes` converter must
"decode base64 payload into a byte-blob wrapper type".  Modelled as standard
base64 decoding; as in Python's `base64.b64decode`, characters outside the
alphabet are discarded before the length check. -/
def base64_fromb64 (s : String) : Option (List Nat) :=
  b64DecodeGroups (s.data.filter (fun c => (b64CharVal c).isSome || c == '='))

/-- Lower-case hexadecimal digit. -/
def hexDigitChar (n : Nat) : Char :=
  if n < 10 then Char.ofNat (48 + n) else Char.ofNat (87 + n)

/-- Four lower-case hex digits, as in a JSON `\uXXXX` escape. -/
def hex4 (n : Nat) : List Char :=
  [hexDigitChar (n / 4096 % 16), hexDigitChar (n / 256 % 16),
   hexDigitChar (n / 16 % 16), hexDigitChar (n % 16)]

/-- JSON escaping of one character, following `json.dumps` defaults
(`ensure_ascii=True`; characters beyond the basic plane are not exercised
by the wire format and are escaped without surrogate pairs here). -/
def jsonEscapeChar (c : Char) : List Char :=
  if c == '"' then ['\\', '"']
  else if c == '\\' then ['\\', '\\']
  else if c == '\n' then ['\\', 'n']
  else if c == '\t' then ['\\', 't']
  else if c == '\r' then ['\\', 'r']
  else if c.toNat < 32 ∨ c.toNat > 126 then '\\' :: 'u' :: hex4 c.toNat
  else [c]

/-- A JSON string literal for `s`, double-quoted and escaped. -/
def jsonStringLit (s : String) : String :=
  ('"' :: (s.data.foldr (fun c acc => jsonEscapeChar c ++ acc) ['"'])).asString

/-- Fuelled model of `json.dumps` with its default separators
(`", "` and `": "`); returns `none` (Python: `TypeError`) on values that are
not JSON-serializable, such as the rich native types. -/
def jsonDumpsF : Nat → Value → Option String
  | 0, _ => none
  | fuel + 1, v =>
      match v with
      | .vNull => some "null"
      | .vBool b => some (if b then "true" else "false")
      | .vInt n => some (toString n)
      | .vStr s => some (jsonStringLit s)
      | .vList xs =>
          match xs.mapM (fun x => jsonDumpsF fuel x) with
          | none => none
          | some parts => some ("[" ++ String.intercalate ", " parts ++ "]")
      | .vObj kvs =>
          match kvs.mapM (fun kv => (jsonDumpsF fuel kv.2).map (fun s => jsonStringLit kv.1 ++ ": " ++ s)) with
          | none => none
          | some parts => some ("\x7b" ++ String.intercalate ", " parts ++ "\x7d")
      | _ => none

/-- Model of `json.dumps` (the fuel `valueSize v` dominates the recursion
depth). -/
def jsonDumps (v : Value) : Option String := jsonDumpsF (valueSize v) v

/-- Model of Python `int(str)` on the wire's bigint literals (optional sign,
digits; whitespace/underscore stripping is not exercised by the wire). -/
def pyIntParse (s : String) : Option Int := parseSignedInt s.data

/-! ## The tag converters (`_raw_query.py` lines 174–238) -/

/-- `_deserialize_date`: parse ISO and force `tzinfo` to `None`
(`datetime.fromisoformat(value).replace(tzinfo=None)`). -/
def _deserialize_date (value : Value) (_for_model : Bool) : Except Err Value :=
  match value with
  | .vStr s =>
      match fromisoformat s with
      | some dt => .ok (.vDateTime { dt with tzOffsetMinutes := none })
      | none => .error .conversionError
  | _ => .error .conversionError

/-- `_deserialize_datetime`: `datetime.fromisoformat(value)`. -/
def _deserialize_datetime (value : Value) (_for_model : Bool) : Except Err Value :=
  match value with
  | .vStr s =>
      match fromisoformat s with
      | some dt => .ok (.vDateTime dt)
      | none => .error .conversionError
  | _ => .error .conversionError

/-- `_deserialize_bigint`: `int(value)`. -/
def _deserialize_bigint (value : Value) (_for_model : Bool) : Except Err Value :=
  match value with
  | .vStr s =>
      match pyIntParse s with
      | some n => .ok (.vInt n)
      | none => .error .conversionError
  | _ => .error .conversionError

/-- `_deserialize_bytes`: `Base64.fromb64(value)`. -/
def _deserialize_bytes (value : Value) (_for_model : Bool) : Except Err Value :=
  match value with
  | .vStr s =>
      match base64_fromb64 s with
      | some bs => .ok (.vBytes bs)
      | none => .error .conversionError
  | _ => .error .conversionError

/-- `_deserialize_decimal`: `Decimal(value)`. -/
def _deserialize_decimal (value : Value) (_for_model : Bool) : Except Err Value :=
  match value with
  | .vStr s =>
      match parseDecimal s with
      | some d => .ok (.vDecimal d)
      | none => .error .conversionError
  | _ => .error .conversionError

/-- `_deserialize_time`: `datetime.fromisoformat(f'1970-01-01T${value}Z')`.
The Python source contains a literal `$` inside the f-string (a leftover of
the upstream JavaScript template literal), so the string handed to the
parser is `'1970-01-01T$' + value + 'Z'`, reproduced faithfully here. -/
def _deserialize_time (value : Value) (_for_model : Bool) : Except Err Value :=
  match value with
  | .vStr s =>
      match fromisoformat ("1970-01-01T$" ++ s ++ "Z") with
      | some dt => .ok (.vDateTime dt)
      | none => .error .conversionError
  | _ => .error .conversionError

/-- `_deserialize_json`: re-encode to a JSON string only when the value is
not already a string and the caller asked for model-shaped output. -/
def _deserialize_json (value : Value) (for_model : Bool) : Except Err Value :=
  if !(isVStr value) && for_model then
    match jsonDumps value with
    | some s => .ok (.vStr s)
    | none => .error .conversionError
  else
    .ok value

/-- The keys of the `DESERIALIZERS` dispatch table
(`_raw_query.py` lines 240–249). -/
def DESERIALIZER_TAGS : List String :=
  ["bigint", "bytes", "decimal", "datetime", "date", "time", "array", "json"]

/-- Sequential effectful map over a list in the `Except` monad, as a Python
`for`-loop or list comprehension that stops at the first exception. -/
def exceptMapList (f : α → Except Err β) : List α → Except Err (List β)
  | [] => .ok []
  | x :: xs =>
      match f x with
      | .error e => .error e
      | .ok y =>
          match exceptMapList f xs with
          | .error e => .error e
          | .ok ys => .ok (y :: ys)

/-- Fuelled dispatch on a type tag: `_deserializers[prisma_type](value,
for_model) if prisma_type in _deserializers else value`, with the `array`
entry (`_deserialize_array`, lines 206–223) inlined so that the recursion is
structural on the fuel.  Inside the array loop each entry is read in source
order (`prisma__type` first, then `prisma__value`); a missing sub-field is a
`KeyError` (`malformedTag`), a non-dict entry a `TypeError`
(`malformedTag`), and a non-string tag is simply not a key of the dispatch
table, so the raw value passes through. -/
def deserializeValueF : Nat → String → Value → Bool → Except Err Value
  | 0, _, _, _ => .error .fuelExhausted
  | fuel + 1, tag, value, forModel =>
      if tag = "bigint" then _deserialize_bigint value forModel
      else if tag = "bytes" then _deserialize_bytes value forModel
      else if tag = "decimal" then _deserialize_decimal value forModel
      else if tag = "datetime" then _deserialize_datetime value forModel
      else if tag = "date" then _deserialize_date value forModel
      else if tag = "time" then _deserialize_time value forModel
      else if tag = "array" then
        match value with
        | .vList entries =>
            match exceptMapList (fun entry =>
              match entry with
              | .vObj d =>
                  match d.lookup "prisma__type" with
                  | none => .error .malformedTag
                  | some tv =>
                      match d.lookup "prisma__value" with
                      | none => .error .malformedTag
                      | some pv =>
                          match tv with
                          | .vStr t => deserializeValueF fuel t pv forModel
                          | _ => .ok pv
              | _ => .error .malformedTag) entries with
            | .error e => .error e
            | .ok arr => .ok (.vList arr)
        | _ => .error .conversionError
      else if tag = "json" then _deserialize_json value forModel
      else .ok value

/-- Dispatch a tagged value to its converter (identity for tags outside the
dispatch table).  The fuel `valueSize value` dominates the recursion depth
of nested arrays (adequacy is proved below). -/
def deserialize_value (tag : String) (value : Value) (forModel : Bool) : Except Err Value :=
  deserializeValueF (valueSize value) tag value forModel

/-- Body of the field loop of `_deserialize_prisma_object` (lines 158–166):
read `prisma__value` then `prisma__type` of one leaf (a missing sub-field or
a non-dict leaf raises), dispatch, and keep the field name. -/
def deserialize_field (forModel : Bool) (kv : String × Value) : Except Err (String × Value) :=
  match kv.2 with
  | .vObj d =>
      match d.lookup "prisma__value" with
      | none => .error .malformedTag
      | some value =>
          match d.lookup "prisma__type" with
          | none => .error .malformedTag
          | some tv =>
              match tv with
              | .vStr t =>
                  match deserialize_value t value forModel with
                  | .error e => .error e
                  | .ok v => .ok (kv.1, v)
              | _ => .ok (kv.1, value)
  | _ => .error .malformedTag

/-- `_deserialize_prisma_object` without the model step: transform every
field of a row, preserving names and order. -/
def _deserialize_prisma_object (raw_obj : List (String × Value)) (forModel : Bool) :
    Except Err (List (String × Value)) :=
  exceptMapList (deserialize_field forModel) raw_obj

/-- `deserialize_raw_results(raw_list)` (no model): each row is converted
with `for_model=False`; the first exception aborts the whole call. -/
def deserialize_raw_results (raw_list : List (List (String × Value))) :
    Except Err (List (List (String × Value))) :=
  exceptMapList (fun obj => _deserialize_prisma_object obj false) raw_list

/-- `deserialize_raw_results(raw_list, model)`: each row is converted with
`for_model=True` and then handed to the external model constructor
(`model.parse_obj`), whose failures propagate unmodified. -/
def deserialize_raw_results_model (parse : List (String × Value) → Except Err α)
    (raw_list : List (List (String × Value))) : Except Err (List α) :=
  exceptMapList (fun obj =>
    match _deserialize_prisma_object obj true with
    | .error e => .error e
    | .ok new_obj => parse new_obj) raw_list

/-- Fuelled `_parse_value` (lines 75–84): read `prisma__value` then
`prisma__type`; only the `array` tag is special-cased (recursively
unwrapping entries); every other tag returns the raw value verbatim. -/
def _parse_valueF : Nat → Value → Except Err Value
  | 0, _ => .error .fuelExhausted
  | fuel + 1, raw_obj =>
      match raw_obj with
      | .vObj d =>
          match d.lookup "prisma__value" with
          | none => .error .malformedTag
          | some value =>
              match d.lookup "prisma__type" with
              | none => .error .malformedTag
              | some tv =>
                  match tv with
                  | .vStr t =>
                      if t = "array" then
                        match value with
                        | .vList entries =>
                            match exceptMapList (fun entry => _parse_valueF fuel entry) entries with
                            | .error e => .error e
                            | .ok arr => .ok (.vList arr)
                        | _ => .error .conversionError
                      else .ok value
                  | _ => .ok value
      | _ => .error .malformedTag

/-- `_parse_value` with adequate fuel. -/
def _parse_value (raw_obj : Value) : Except Err Value :=
  _parse_valueF (valueSize raw_obj) raw_obj

/-- `_parse_prisma_obj` (lines 71–72): apply `_parse_value` to every field's
value, keeping names and order. -/
def _parse_prisma_obj (raw_obj : List (String × Value)) : Except Err (List (String × Value)) :=
  exceptMapList (fun kv =>
    match _parse_value kv.2 with
    | .error e => .error e
    | .ok v => .ok (kv.1, v)) raw_obj

/-- `parse_raw_results(raw_list)` (no model): array-unwrap-only parsing of
every row. -/
def parse_raw_results (raw_list : List (List (String × Value))) :
    Except Err (List (List (String × Value))) :=
  exceptMapList _parse_prisma_obj raw_list

/-! ## The binary cache manager (`binaries/binaries.py`) -/

/-- A binary descriptor: a well-known name plus the environment variable
that can override its path. -/
structure Binary where
  name : String
  env : String
deriving DecidableEq, Repr

/-- The fixed list of 4 engine binaries (lines 25–32). -/
def ENGINES : List Binary :=
  [⟨"query-engine", "PRISMA_QUERY_ENGINE_BINARY"⟩,
   ⟨"migration-engine", "PRISMA_MIGRATION_ENGINE_BINARY"⟩,
   ⟨"introspection-engine", "PRISMA_INTROSPECTION_ENGINE_BINARY"⟩,
   ⟨"prisma-fmt", "PRISMA_FMT_BINARY"⟩]

/-- The full required set (lines 34–37): the 4 engines plus the CLI tool.
`PRISMA_CLI_NAME` comes from `constants.py`, which is not among the
analyzed sources, so the CLI name is passed as a parameter; its override
variable `PRISMA_CLI_BINARY` is literal in the analyzed source. -/
def BINARIES (cliName : String) : List Binary :=
  ENGINES ++ [⟨cliName, "PRISMA_CLI_BINARY"⟩]

/-- The process environment: `os.environ.get`. -/
def Env : Type := String → Option String

/-- Python truthiness of `os.environ.get(key)`: set and non-empty. -/
def envTruthy (env : Env) (key : String) : Bool :=
  match env key with
  | some s => !(s == "")
  | none => false

/-- `uses_custom_binaries()` (lines 40–49): true iff all four engine
override variables are truthy; the CLI override is not consulted. -/
def uses_custom_binaries (env : Env) : Bool :=
  if envTruthy env "PRISMA_QUERY_ENGINE_BINARY"
      && envTruthy env "PRISMA_MIGRATION_ENGINE_BINARY"
      && envTruthy env "PRISMA_INTROSPECTION_ENGINE_BINARY"
      && envTruthy env "PRISMA_FMT_BINARY" then
    true
  else
    false

/-- `ensure_cached()` (lines 52–80), with its effects made explicit: the
filesystem-existence check at each binary's cached path is the predicate
`pathExists`, and the returned first component is the ordered list of
binaries for which `binary.download()` is called (each download is the only
filesystem write the function performs).  The second component models the
returned `config.binary_cache_dir` (`config` is not among the analyzed
sources, so the directory is a parameter). -/
def ensure_cached (binaryCacheDir : String) (cliName : String) (env : Env)
    (pathExists : Binary → Bool) : List Binary × String :=
  let binaries := (BINARIES cliName).filter (fun b => !(pathExists b))
  if binaries.isEmpty || uses_custom_binaries env then
    ([], binaryCacheDir)
  else
    (binaries, binaryCacheDir)

/-! ## Lemmas about `exceptMapList` -/

theorem exceptMapList_ok_mem {α β : Type} {f : α → Except Err β} :
    ∀ {l : List α} {out : List β}, exceptMapList f l = .ok out →
      ∀ {x : α}, x ∈ l → ∃ y, f x = .ok y := by
  intro l
  induction l with
  | nil => intro out _ x hx; cases hx
  | cons a as ih =>
      intro out h x hx
      simp only [exceptMapList] at h
      cases hfa : f a with
      | error e => rw [hfa] at h; exact Except.noConfusion h
      | ok y =>
          rw [hfa] at h
          cases hrest : exceptMapList f as with
          | error e => rw [hrest] at h; exact Except.noConfusion h
          | ok ys =>
              rw [hrest] at h
              cases hx with
              | head => exact ⟨y, hfa⟩
              | tail _ hmem => exact ih hrest hmem

theorem exceptMapList_error_mem {α β : Type} {f : α → Except Err β} :
    ∀ {l : List α} {e : Err}, exceptMapList f l = .error e →
      ∃ x, x ∈ l ∧ f x = .error e := by
  intro l
  induction l with
  | nil => intro e h; exact Except.noConfusion h
  | cons a as ih =>
      intro e h
      simp only [exceptMapList] at h
      cases hfa : f a with
      | error e2 =>
          rw [hfa] at h
          injection h with h2
          exact ⟨a, List.mem_cons_self a as, by rw [hfa, h2]⟩
      | ok y =>
          rw [hfa] at h
          cases hrest : exceptMapList f as with
          | error e2 =>
              rw [hrest] at h
              injection h with h2
              obtain ⟨x, hx, hfx⟩ := ih hrest
              exact ⟨x, List.mem_cons_of_mem a hx, by rw [hfx, h2]⟩
          | ok ys => rw [hrest] at h; exact Except.noConfusion h

theorem exceptMapList_error_of_mem {α β : Type} {f : α → Except Err β} :
    ∀ {l : List α} {x : α} {e : Err}, x ∈ l → f x = .error e →
      (∀ y ∈ l, ∀ e2, f y = .error e2 → e2 = e) →
      exceptMapList f l = .error e := by
  intro l
  induction l with
  | nil => intro x e hx; cases hx
  | cons a as ih =>
      intro x e hx hfx hall
      simp only [exceptMapList]
      cases hfa : f a with
      | error e2 =>
          have : e2 = e := hall a (List.mem_cons_self a as) e2 hfa
          rw [this]
      | ok y =>
          cases hx with
          | head => rw [hfa] at hfx; exact Except.noConfusion hfx
          | tail _ hmem =>
              have hrec : exceptMapList f as = .error e :=
                ih hmem hfx (fun z hz => hall z (List.mem_cons_of_mem a hz))
              rw [hrec]

theorem exceptMapList_ok_map {α β γ : Type} {f : α → Except Err β} (g : β → γ) (gg : α → γ) :
    ∀ {l : List α} {out : List β}, exceptMapList f l = .ok out →
      (∀ x y, x ∈ l → f x = .ok y → g y = gg x) →
      out.map g = l.map gg := by
  intro l
  induction l with
  | nil =>
      intro out h _
      simp only [exceptMapList] at h
      injection h with h2
      rw [← h2]
      rfl
  | cons a as ih =>
      intro out h hrel
      simp only [exceptMapList] at h
      cases hfa : f a with
      | error e => rw [hfa] at h; exact Except.noConfusion h
      | ok y =>
          rw [hfa] at h
          cases hrest : exceptMapList f as with
          | error e => rw [hrest] at h; exact Except.noConfusion h
          | ok ys =>
              rw [hrest] at h
              injection h with h2
              rw [← h2]
              have h1 : g y = gg a := hrel a y (List.mem_cons_self a as) hfa
              have h2 : ys.map g = as.map gg :=
                ih hrest (fun x z hx => hrel x z (List.mem_cons_of_mem a hx))
              simp [h1, h2]

theorem exceptMapList_congr {α β : Type} {f g : α → Except Err β} :
    ∀ {l : List α}, (∀ x ∈ l, f x = g x) → exceptMapList f l = exceptMapList g l := by
  intro l
  induction l with
  | nil => intro _; rfl
  | cons a as ih =>
      intro h
      simp only [exceptMapList]
      rw [h a (List.mem_cons_self a as), ih (fun x hx => h x (List.mem_cons_of_mem a hx))]

/-! ## Size lemmas -/

theorem valueSize_pos (v : Value) : 1 ≤ valueSize v := by
  cases v <;> simp [valueSize]

theorem valueSizeList_lt_of_mem {xs : List Value} {x : Value} (h : x ∈ xs) :
    valueSize x < valueSizeList xs := by
  induction xs with
  | nil => cases h
  | cons a as ih =>
      cases h with
      | head => simp [valueSizeList]; omega
      | tail _ hm =>
          have := ih hm
          simp [valueSizeList]
          omega

theorem lookup_valueSize {k : String} :
    ∀ {d : List (String × Value)} {v : Value}, d.lookup k = some v →
      valueSize v < valueSizeObj d := by
  intro d
  induction d with
  | nil => intro v h; exact Option.noConfusion h
  | cons kv tl ih =>
      intro v h
      obtain ⟨k1, b⟩ := kv
      simp only [List.lookup] at h
      cases hbeq : (k == k1) with
      | true =>
          rw [hbeq] at h
          injection h with h2
          simp [valueSizeObj, ← h2]
          omega
      | false =>
          rw [hbeq] at h
          have := ih h
          simp [valueSizeObj]
          omega

/-! ## The scalar converters never exhaust fuel (they take none) -/

theorem _deserialize_bigint_no_fuel (v : Value) (fm : Bool) :
    _deserialize_bigint v fm ≠ .error .fuelExhausted := by
  unfold _deserialize_bigint
  split
  · split <;> simp
  · simp

theorem _deserialize_bytes_no_fuel (v : Value) (fm : Bool) :
    _deserialize_bytes v fm ≠ .error .fuelExhausted := by
  unfold _deserialize_bytes
  split
  · split <;> simp
  · simp

theorem _deserialize_decimal_no_fuel (v : Value) (fm : Bool) :
    _deserialize_decimal v fm ≠ .error .fuelExhausted := by
  unfold _deserialize_decimal
  split
  · split <;> simp
  · simp

theorem _deserialize_datetime_no_fuel (v : Value) (fm : Bool) :
    _deserialize_datetime v fm ≠ .error .fuelExhausted := by
  unfold _deserialize_datetime
  split
  · split <;> simp
  · simp

theorem _deserialize_date_no_fuel (v : Value) (fm : Bool) :
    _deserialize_date v fm ≠ .error .fuelExhausted := by
  unfold _deserialize_date
  split
  · split <;> simp
  · simp

theorem _deserialize_time_no_fuel (v : Value) (fm : Bool) :
    _deserialize_time v fm ≠ .error .fuelExhausted := by
  unfold _deserialize_time
  split
  · split <;> simp
  · simp

theorem _deserialize_json_no_fuel (v : Value) (fm : Bool) :
    _deserialize_json v fm ≠ .error .fuelExhausted := by
  unfold _deserialize_json
  split
  · split <;> simp
  · simp

/-! ## Fuel adequacy -/

theorem deserializeValueF_no_fuel :
    ∀ (fuel : Nat) (tag : String) (v : Value) (fm : Bool), valueSize v ≤ fuel →
      deserializeValueF fuel tag v fm ≠ .error .fuelExhausted := by
  intro fuel
  induction fuel with
  | zero => intro tag v fm h; have := valueSize_pos v; omega
  | succ f ih =>
      intro tag v fm h
      simp only [deserializeValueF]
      split_ifs with h1 h2 h3 h4 h5 h6 h7 h8
      · exact _deserialize_bigint_no_fuel v fm
      · exact _deserialize_bytes_no_fuel v fm
      · exact _deserialize_decimal_no_fuel v fm
      · exact _deserialize_datetime_no_fuel v fm
      · exact _deserialize_date_no_fuel v fm
      · exact _deserialize_time_no_fuel v fm
      · -- the array branch
        cases v with
        | vList entries =>
            cases hm : exceptMapList (fun entry =>
              match entry with
              | .vObj d =>
                  match d.lookup "prisma__type" with
                  | none => Except.error Err.malformedTag
                  | some tv =>
                      match d.lookup "prisma__value" with
                      | none => Except.error Err.malformedTag
                      | some pv =>
                          match tv with
                          | .vStr t => deserializeValueF f t pv fm
                          | _ => Except.ok pv
              | _ => Except.error Err.malformedTag) entries with
            | ok arr => simp [hm]
            | error e =>
                simp only [hm]
                obtain ⟨entry, hmem, hentry⟩ := exceptMapList_error_mem hm
                have hesz : valueSize entry < valueSizeList entries := valueSizeList_lt_of_mem hmem
                have hsz : valueSize (Value.vList entries) ≤ f + 1 := h
                simp only [valueSize] at hsz
                intro hcontra
                injection hcontra with he
                subst he
                cases entry with
                | vObj d =>
                    simp only at hentry
                    cases htv : d.lookup "prisma__type" with
                    | none => rw [htv] at hentry; injection hentry with h2; exact Err.noConfusion h2
                    | some tv =>
                        rw [htv] at hentry
                        cases hpv : d.lookup "prisma__value" with
                        | none => rw [hpv] at hentry; injection hentry with h2; exact Err.noConfusion h2
                        | some pv =>
                            rw [hpv] at hentry
                            have hpvsz : valueSize pv < valueSizeObj d := lookup_valueSize hpv
                            have hdsz : valueSize (Value.vObj d) = 1 + valueSizeObj d := by
                              simp [valueSize]
                            cases tv with
                            | vStr t =>
                                simp only at hentry
                                have : valueSize pv ≤ f := by
                                  rw [hdsz] at hesz
                                  omega
                                exact ih t pv fm this hentry
                            | vNull => simp at hentry
                            | vBool b => simp at hentry
                            | vInt n => simp at hentry
                            | vList l2 => simp at hentry
                            | vObj o2 => simp at hentry
                            | vDateTime dt => simp at hentry
                            | vDecimal dd => simp at hentry
                            | vBytes bs => simp at hentry
                | vNull => simp at hentry
                | vBool b => simp at hentry
                | vInt n => simp at hentry
                | vStr s => simp at hentry
                | vList l2 => simp at hentry
                | vDateTime dt => simp at hentry
                | vDecimal dd => simp at hentry
                | vBytes bs => simp at hentry
        | vNull => simp
        | vBool b => simp
        | vInt n => simp
        | vStr s => simp
        | vObj o => simp
        | vDateTime dt => simp
        | vDecimal dd => simp
        | vBytes bs => simp
      · exact _deserialize_json_no_fuel v fm
      · simp

theorem parse_valueF_no_fuel :
    ∀ (fuel : Nat) (v : Value), valueSize v ≤ fuel →
      _parse_valueF fuel v ≠ .error .fuelExhausted := by
  intro fuel
  induction fuel with
  | zero => intro v h; have := valueSize_pos v; omega
  | succ f ih =>
      intro v h
      simp only [_parse_valueF]
      cases v with
      | vObj d =>
          cases hpv : d.lookup "prisma__value" with
          | none => simp [hpv]
          | some value =>
              cases htv : d.lookup "prisma__type" with
              | none => simp [hpv, htv]
              | some tv =>
                  cases tv with
                  | vStr t =>
                      simp only [hpv, htv]
                      split_ifs with harr
                      · cases value with
                        | vList entries =>
                            cases hm : exceptMapList (fun entry => _parse_valueF f entry) entries with
                            | ok arr => simp [hm]
                            | error e =>
                                simp only [hm]
                                intro hcontra
                                injection hcontra with he
                                subst he
                                obtain ⟨entry, hmem, hentry⟩ := exceptMapList_error_mem hm
                                have h1 : valueSize entry < valueSizeList entries :=
                                  valueSizeList_lt_of_mem hmem
                                have h2 : valueSize (Value.vList entries) < valueSizeObj d :=
                                  lookup_valueSize hpv
                                have h3 : valueSize (Value.vObj d) = 1 + valueSizeObj d := by
                                  simp [valueSize]
                                have h4 : valueSize (Value.vList entries) = 1 + valueSizeList entries := by
                                  simp [valueSize]
                                have : valueSize entry ≤ f := by
                                  rw [h3] at h
                                  omega
                                exact ih entry this hentry
                        | vNull => simp
                        | vBool b => simp
                        | vInt n => simp
                        | vStr s => simp
                        | vObj o => simp
                        | vDateTime dt => simp
                        | vDecimal dd => simp
                        | vBytes bs => simp
                      · simp
                  | vNull => simp [hpv, htv]
                  | vBool b => simp [hpv, htv]
                  | vInt n => simp [hpv, htv]
                  | vList l2 => simp [hpv, htv]
                  | vObj o2 => simp [hpv, htv]
                  | vDateTime dt => simp [hpv, htv]
                  | vDecimal dd => simp [hpv, htv]
                  | vBytes bs => simp [hpv, htv]
      | vNull => simp
      | vBool b => simp
      | vInt n => simp
      | vStr s => simp
      | vList l2 => simp
      | vDateTime dt => simp
      | vDecimal dd => simp
      | vBytes bs => simp

theorem parse_valueF_congr :
    ∀ (f1 f2 : Nat) (v : Value), valueSize v ≤ f1 → valueSize v ≤ f2 →
      _parse_valueF f1 v = _parse_valueF f2 v := by
  intro f1
  induction f1 with
  | zero => intro f2 v h1 _; have := valueSize_pos v; omega
  | succ f ih =>
      intro f2 v h1 h2
      have hpos := valueSize_pos v
      cases f2 with
      | zero => omega
      | succ f2p =>
          simp only [_parse_valueF]
          cases v with
          | vObj d =>
              cases hpv : d.lookup "prisma__value" with
              | none => simp [hpv]
              | some value =>
                  cases htv : d.lookup "prisma__type" with
                  | none => simp [hpv, htv]
                  | some tv =>
                      cases tv with
                      | vStr t =>
                          simp only [hpv, htv]
                          split_ifs with harr
                          · cases value with
                            | vList entries =>
                                have hcongr : exceptMapList (fun entry => _parse_valueF f entry) entries
                                    = exceptMapList (fun entry => _parse_valueF f2p entry) entries := by
                                  apply exceptMapList_congr
                                  intro entry hmem
                                  have ha : valueSize entry < valueSizeList entries :=
                                    valueSizeList_lt_of_mem hmem
                                  have hb : valueSize (Value.vList entries) < valueSizeObj d :=
                                    lookup_valueSize hpv
                                  have hc : valueSize (Value.vObj d) = 1 + valueSizeObj d := by
                                    simp [valueSize]
                                  have hd : valueSize (Value.vList entries) = 1 + valueSizeList entries := by
                                    simp [valueSize]
                                  apply ih
                                  · rw [hc] at h1; omega
                                  · rw [hc] at h2; omega
                                simp only [hcongr]
                            | vNull => rfl
                            | vBool b => rfl
                            | vInt n => rfl
                            | vStr s => rfl
                            | vObj o => rfl
                            | vDateTime dt => rfl
                            | vDecimal dd => rfl
                            | vBytes bs => rfl
                          · rfl
                      | vNull => simp [hpv, htv]
                      | vBool b => simp [hpv, htv]
                      | vInt n => simp [hpv, htv]
                      | vList l2 => simp [hpv, htv]
                      | vObj o2 => simp [hpv, htv]
                      | vDateTime dt => simp [hpv, htv]
                      | vDecimal dd => simp [hpv, htv]
                      | vBytes bs => simp [hpv, htv]
          | vNull => rfl
          | vBool b => rfl
          | vInt n => rfl
          | vStr s => rfl
          | vList l2 => rfl
          | vDateTime dt => rfl
          | vDecimal dd => rfl
          | vBytes bs => rfl

/-! ## Field-level lemmas -/

theorem deserialize_field_no_fuel (fm : Bool) (kv : String × Value) :
    deserialize_field fm kv ≠ .error .fuelExhausted := by
  obtain ⟨k, v⟩ := kv
  cases v with
  | vObj d =>
      simp only [deserialize_field]
      cases hpv : d.lookup "prisma__value" with
      | none => simp [hpv]
      | some value =>
          cases htv : d.lookup "prisma__type" with
          | none => simp [hpv, htv]
          | some tv =>
              cases tv with
              | vStr t =>
                  simp only [hpv, htv]
                  cases hres : deserialize_value t value fm with
                  | error e =>
                      simp only [hres]
                      intro hcontra
                      injection hcontra with he
                      subst he
                      exact deserializeValueF_no_fuel (valueSize value) t value fm
                        (Nat.le_refl _) hres
                  | ok w => simp [hres]
              | vNull => simp [hpv, htv]
              | vBool b => simp [hpv, htv]
              | vInt n => simp [hpv, htv]
              | vList l2 => simp [hpv, htv]
              | vObj o2 => simp [hpv, htv]
              | vDateTime dt => simp [hpv, htv]
              | vDecimal dd => simp [hpv, htv]
              | vBytes bs => simp [hpv, htv]
  | vNull => simp [deserialize_field]
  | vBool b => simp [deserialize_field]
  | vInt n => simp [deserialize_field]
  | vStr s => simp [deserialize_field]
  | vList l2 => simp [deserialize_field]
  | vDateTime dt => simp [deserialize_field]
  | vDecimal dd => simp [deserialize_field]
  | vBytes bs => simp [deserialize_field]

theorem deserialize_field_malformed (fm : Bool) (k : String) (d : List (String × Value))
    (h : d.lookup "prisma__value" = none ∨ d.lookup "prisma__type" = none) :
    deserialize_field fm (k, .vObj d) = .error .malformedTag := by
  cases hpv : d.lookup "prisma__value" with
  | none => simp [deserialize_field, hpv]
  | some value =>
      cases h with
      | inl h1 => rw [h1] at hpv; exact Option.noConfusion hpv
      | inr h2 => simp [deserialize_field, hpv, h2]

theorem deserialize_field_fst (fm : Bool) :
    ∀ (kv : String × Value) (r : String × Value),
      deserialize_field fm kv = .ok r → r.1 = kv.1 := by
  intro kv r h
  obtain ⟨k, v⟩ := kv
  cases v with
  | vObj d =>
      simp only [deserialize_field] at h
      cases hpv : d.lookup "prisma__value" with
      | none => rw [hpv] at h; exact Except.noConfusion h
      | some value =>
          rw [hpv] at h
          cases htv : d.lookup "prisma__type" with
          | none => rw [htv] at h; exact Except.noConfusion h
          | some tv =>
              rw [htv] at h
              cases tv with
              | vStr t =>
                  simp only at h
                  cases hres : deserialize_value t value fm with
                  | error e => rw [hres] at h; exact Except.noConfusion h
                  | ok w =>
                      rw [hres] at h
                      injection h with h2
                      rw [← h2]
              | vNull => simp at h; rw [← h]
              | vBool b => simp at h; rw [← h]
              | vInt n => simp at h; rw [← h]
              | vList l2 => simp at h; rw [← h]
              | vObj o2 => simp at h; rw [← h]
              | vDateTime dt => simp at h; rw [← h]
              | vDecimal dd => simp at h; rw [← h]
              | vBytes bs => simp at h; rw [← h]
  | vNull => simp [deserialize_field] at h
  | vBool b => simp [deserialize_field] at h
  | vInt n => simp [deserialize_field] at h
  | vStr s => simp [deserialize_field] at h
  | vList l2 => simp [deserialize_field] at h
  | vDateTime dt => simp [deserialize_field] at h
  | vDecimal dd => simp [deserialize_field] at h
  | vBytes bs => simp [deserialize_field] at h

/-! ## Claim theorems -/

/-- C10: for every well-formed input row, both deserialization row
transforms — the full path (`_deserialize_prisma_object`) and the raw-parse
path (`_parse_prisma_obj`) — produce an output mapping whose field names
equal the input row's field names exactly and in the same order; only the
values are transformed. -/
theorem row_field_names_preserved :
    (∀ (fm : Bool) (row out : List (String × Value)),
        _deserialize_prisma_object row fm = .ok out →
        out.map Prod.fst = row.map Prod.fst) ∧
    (∀ (row out : List (String × Value)),
        _parse_prisma_obj row = .ok out →
        out.map Prod.fst = row.map Prod.fst) := by
  constructor
  · intro fm row out h
    exact exceptMapList_ok_map Prod.fst Prod.fst h
      (fun kv r _ hok => deserialize_field_fst fm kv r hok)
  · intro row out h
    apply exceptMapList_ok_map Prod.fst Prod.fst h
    intro kv r _ hok
    cases hres : _parse_value kv.2 with
    | error e => rw [hres] at hok; exact Except.noConfusion hok
    | ok v =>
        rw [hres] at hok
        injection hok with h2
        rw [← h2]

/-- Witness for C10 at a concrete two-field row. -/
theorem row_field_names_preserved_witness :
    ([("a", Value.vInt 1), ("b", Value.vInt 2)].map Prod.fst
        = [("a", Value.vObj [("prisma__value", Value.vInt 1), ("prisma__type", Value.vStr "int")]),
           ("b", Value.vObj [("prisma__value", Value.vStr "2"), ("prisma__type", Value.vStr "bigint")])].map Prod.fst) ∧
    ([("a", Value.vInt 1), ("b", Value.vStr "2")].map Prod.fst
        = [("a", Value.vObj [("prisma__value", Value.vInt 1), ("prisma__type", Value.vStr "int")]),
           ("b", Value.vObj [("prisma__value", Value.vStr "2"), ("prisma__type", Value.vStr "bigint")])].map Prod.fst) :=
  ⟨row_field_names_preserved.1 false
      [("a", Value.vObj [("prisma__value", Value.vInt 1), ("prisma__type", Value.vStr "int")]),
       ("b", Value.vObj [("prisma__value", Value.vStr "2"), ("prisma__type", Value.vStr "bigint")])]
      [("a", Value.vInt 1), ("b", Value.vInt 2)] rfl,
   row_field_names_preserved.2
      [("a", Value.vObj [("prisma__value", Value.vInt 1), ("prisma__type", Value.vStr "int")]),
       ("b", Value.vObj [("prisma__value", Value.vStr "2"), ("prisma__type", Value.vStr "bigint")])]
      [("a", Value.vInt 1), ("b", Value.vStr "2")] rfl⟩

theorem deserializeValueF_unknown_tag {t : String} (hne : t ∉ DESERIALIZER_TAGS) :
    ∀ (g : Nat) (v : Value) (fm : Bool), deserializeValueF (g + 1) t v fm = .ok v := by
  simp only [DESERIALIZER_TAGS, List.mem_cons, List.not_mem_nil, or_false] at hne
  push_neg at hne
  obtain ⟨h1, h2, h3, h4, h5, h6, h7, h8⟩ := hne
  intro g v fm
  simp only [deserializeValueF]
  rw [if_neg h1, if_neg h2, if_neg h3, if_neg h4, if_neg h5, if_neg h6, if_neg h7, if_neg h8]

theorem deserializeValueF_array_unknown {t : String} (hne : t ∉ DESERIALIZER_TAGS)
    (g : Nat) (d : List (String × Value)) (v : Value) (fm : Bool)
    (htv : d.lookup "prisma__type" = some (.vStr t))
    (hpv : d.lookup "prisma__value" = some v) :
    deserializeValueF (g + 1 + 1) "array" (.vList [.vObj d]) fm = .ok (.vList [v]) := by
  have hinner := deserializeValueF_unknown_tag hne g v fm
  conv_lhs => rw [deserializeValueF]
  simp only [reduceIte, exceptMapList, htv, hpv, hinner]
  rw [if_neg (by decide : ¬("array" : String) = "bigint"),
      if_neg (by decide : ¬("array" : String) = "bytes"),
      if_neg (by decide : ¬("array" : String) = "decimal"),
      if_neg (by decide : ¬("array" : String) = "datetime"),
      if_neg (by decide : ¬("array" : String) = "date"),
      if_neg (by decide : ¬("array" : String) = "time")]

/-- C9 (implicit): dispatch is total over arbitrary tag strings.  For every
tag absent from the dispatch table — including strings outside the `TypeTag`
enumeration — the full deserialization path returns the raw value unchanged
and never fails on account of the tag: at converter level, at row level
(`_deserialize_prisma_object`'s field loop), and inside array recursion. -/
theorem unknown_tag_passthrough :
    ∀ (t : String), t ∉ DESERIALIZER_TAGS →
      (∀ (v : Value) (fm : Bool), deserialize_value t v fm = .ok v) ∧
      (∀ (k : String) (d : List (String × Value)) (v : Value) (fm : Bool),
          d.lookup "prisma__value" = some v → d.lookup "prisma__type" = some (.vStr t) →
          deserialize_field fm (k, .vObj d) = .ok (k, v)) ∧
      (∀ (d : List (String × Value)) (v : Value) (fm : Bool),
          d.lookup "prisma__type" = some (.vStr t) → d.lookup "prisma__value" = some v →
          deserialize_value "array" (.vList [.vObj d]) fm = .ok (.vList [v])) := by
  intro t hne
  have hbase : ∀ (v : Value) (fm : Bool), deserialize_value t v fm = .ok v := by
    intro v fm
    have hpos := valueSize_pos v
    obtain ⟨g, hg⟩ : ∃ g, valueSize v = g + 1 := ⟨valueSize v - 1, by omega⟩
    simp only [deserialize_value, hg]
    exact deserializeValueF_unknown_tag hne g v fm
  refine ⟨hbase, ?_, ?_⟩
  · intro k d v fm hpv htv
    simp only [deserialize_field, hpv, htv, hbase v fm]
  · intro d v fm htv hpv
    have hfuel : valueSize (Value.vList [Value.vObj d]) = (2 + valueSizeObj d) + 1 + 1 := by
      simp only [valueSize, valueSizeList]
      omega
    simp only [deserialize_value, hfuel]
    exact deserializeValueF_array_unknown hne (2 + valueSizeObj d) d v fm htv hpv

/-- Witness for C9 at concrete tags: `null` (a `TypeTag` not in the table)
and strings outside the enumeration entirely. -/
theorem unknown_tag_passthrough_witness :
    deserialize_value "null" (.vStr "x") false = .ok (.vStr "x") ∧
    deserialize_value "mystery" (.vInt 7) true = .ok (.vInt 7) ∧
    deserialize_field false ("k", .vObj [("prisma__type", .vStr "null"), ("prisma__value", .vNull)])
      = .ok ("k", .vNull) ∧
    deserialize_value "array"
        (.vList [.vObj [("prisma__type", .vStr "xml"), ("prisma__value", .vStr "<a/>")]]) false
      = .ok (.vList [.vStr "<a/>"]) :=
  ⟨(unknown_tag_passthrough "null" (by decide)).1 (.vStr "x") false,
   (unknown_tag_passthrough "mystery" (by decide)).1 (.vInt 7) true,
   (unknown_tag_passthrough "null" (by decide)).2.1 "k"
      [("prisma__type", .vStr "null"), ("prisma__value", .vNull)] .vNull false rfl rfl,
   (unknown_tag_passthrough "xml" (by decide)).2.2
      [("prisma__type", .vStr "xml"), ("prisma__value", .vStr "<a/>")] (.vStr "<a/>") false rfl rfl⟩

theorem deserialize_value_json (v : Value) (fm : Bool) :
    deserialize_value "json" v fm = _deserialize_json v fm := by
  have hpos := valueSize_pos v
  obtain ⟨g, hg⟩ : ∃ g, valueSize v = g + 1 := ⟨valueSize v - 1, by omega⟩
  simp only [deserialize_value, hg, deserializeValueF]
  rw [if_neg (by decide : ¬("json" : String) = "bigint"),
      if_neg (by decide : ¬("json" : String) = "bytes"),
      if_neg (by decide : ¬("json" : String) = "decimal"),
      if_neg (by decide : ¬("json" : String) = "datetime"),
      if_neg (by decide : ¬("json" : String) = "date"),
      if_neg (by decide : ¬("json" : String) = "time"),
      if_neg (by decide : ¬("json" : String) = "array")]
  simp

/-- C3: behaviour of the `json` tag converter depends on the entry point
used.  With `for_model = true` a value that is not already a string is
re-encoded as a JSON string (`json.dumps`); through the plain-mapping entry
point (`for_model = false`) every value passes through unmodified, whatever
form it is in.  The last two conjuncts exercise the two public entry points
end to end. -/
theorem json_tag_dual_entry_behavior :
    (∀ (v : Value) (s : String), isVStr v = false → jsonDumps v = some s →
        _deserialize_json v true = .ok (.vStr s)) ∧
    (∀ (v : Value), _deserialize_json v false = .ok v) ∧
    (∀ (k : String) (v : Value),
        deserialize_raw_results [[(k, .vObj [("prisma__type", .vStr "json"), ("prisma__value", v)])]]
          = .ok [[(k, v)]]) ∧
    (∀ (k : String) (v : Value) (s : String), isVStr v = false → jsonDumps v = some s →
        deserialize_raw_results_model Except.ok
            [[(k, .vObj [("prisma__type", .vStr "json"), ("prisma__value", v)])]]
          = .ok [[(k, .vStr s)]]) := by
  refine ⟨?_, ?_, ?_, ?_⟩
  · intro v s h1 h2
    simp [_deserialize_json, h1, h2]
  · intro v
    simp [_deserialize_json]
  · intro k v
    have hpv : List.lookup "prisma__value"
        [("prisma__type", Value.vStr "json"), ("prisma__value", v)] = some v := rfl
    have htv : List.lookup "prisma__type"
        [("prisma__type", Value.vStr "json"), ("prisma__value", v)] = some (Value.vStr "json") := rfl
    simp only [deserialize_raw_results, exceptMapList, _deserialize_prisma_object,
      deserialize_field, hpv, htv, deserialize_value_json, _deserialize_json]
    simp
  · intro k v s h1 h2
    have hpv : List.lookup "prisma__value"
        [("prisma__type", Value.vStr "json"), ("prisma__value", v)] = some v := rfl
    have htv : List.lookup "prisma__type"
        [("prisma__type", Value.vStr "json"), ("prisma__value", v)] = some (Value.vStr "json") := rfl
    simp only [deserialize_raw_results_model, exceptMapList, _deserialize_prisma_object,
      deserialize_field, hpv, htv, deserialize_value_json, _deserialize_json, h1, h2]
    simp [h2]

/-- Witness for C3 at the concrete structured value corresponding to the
Python dict `dict(a=1)`. -/
theorem json_tag_dual_entry_behavior_witness :
    _deserialize_json (.vObj [("a", .vInt 1)]) true = .ok (.vStr "\x7b\"a\": 1\x7d") ∧
    _deserialize_json (.vObj [("a", .vInt 1)]) false = .ok (.vObj [("a", .vInt 1)]) ∧
    deserialize_raw_results
        [[("j", .vObj [("prisma__type", .vStr "json"), ("prisma__value", .vStr "already")])]]
      = .ok [[("j", .vStr "already")]] ∧
    deserialize_raw_results_model Except.ok
        [[("j", .vObj [("prisma__type", .vStr "json"), ("prisma__value", .vObj [("a", .vInt 1)])])]]
      = .ok [[("j", .vStr "\x7b\"a\": 1\x7d")]] :=
  ⟨json_tag_dual_entry_behavior.1 (.vObj [("a", .vInt 1)]) "\x7b\"a\": 1\x7d" rfl rfl,
   json_tag_dual_entry_behavior.2.1 (.vObj [("a", .vInt 1)]),
   json_tag_dual_entry_behavior.2.2.1 "j" (.vStr "already"),
   json_tag_dual_entry_behavior.2.2.2 "j" (.vObj [("a", .vInt 1)]) "\x7b\"a\": 1\x7d" rfl rfl⟩

/-- C6: for every string the ISO parser accepts, the `date` converter yields
the parsed timestamp with its timezone/offset cleared and every other field
unchanged; when the parsed timestamp already lacks timezone info the
clearing step changes nothing (idempotence). -/
theorem date_tag_clears_timezone :
    ∀ (s : String) (dt : PyDateTime) (fm : Bool), fromisoformat s = some dt →
      ∃ dtr : PyDateTime,
        _deserialize_date (.vStr s) fm = .ok (.vDateTime dtr) ∧
        dtr.year = dt.year ∧ dtr.month = dt.month ∧ dtr.day = dt.day ∧
        dtr.hour = dt.hour ∧ dtr.minute = dt.minute ∧ dtr.second = dt.second ∧
        dtr.microsecond = dt.microsecond ∧ dtr.tzOffsetMinutes = none ∧
        (dt.tzOffsetMinutes = none → dtr = dt) := by
  intro s dt fm h
  refine ⟨{ dt with tzOffsetMinutes := none }, ?_, rfl, rfl, rfl, rfl, rfl, rfl, rfl, rfl, ?_⟩
  · simp [_deserialize_date, h]
  · intro hnone
    cases dt
    simp_all

/-- Witness for C6 at `2023-01-01T00:00:00+02:00` (testable property 4 of
the spec). -/
theorem date_tag_clears_timezone_witness :
    ∃ dtr : PyDateTime,
      _deserialize_date (.vStr "2023-01-01T00:00:00+02:00") false = .ok (.vDateTime dtr) ∧
      dtr.year = 2023 ∧ dtr.month = 1 ∧ dtr.day = 1 ∧ dtr.hour = 0 ∧ dtr.minute = 0 ∧
      dtr.second = 0 ∧ dtr.microsecond = 0 ∧ dtr.tzOffsetMinutes = none ∧
      (PyDateTime.tzOffsetMinutes ⟨2023, 1, 1, 0, 0, 0, 0, some 120⟩ = none →
        dtr = ⟨2023, 1, 1, 0, 0, 0, 0, some 120⟩) :=
  date_tag_clears_timezone "2023-01-01T00:00:00+02:00" ⟨2023, 1, 1, 0, 0, 0, 0, some 120⟩ false rfl

theorem fromisoformat_time_prefix_fails (s : String) :
    fromisoformat ("1970-01-01T$" ++ s ++ "Z") = none := by
  simp only [fromisoformat, String.data_append]
  rfl

/-- C1 (code bug): the `time` converter is meant to parse
`'1970-01-01T' + value + 'Z'`, but the Python source interpolates through an
f-string containing a literal `$` (`f'1970-01-01T${value}Z'`, a leftover of
the upstream JavaScript template literal), so the parsed string is
`'1970-01-01T$' + value + 'Z'`, which is never a valid ISO timestamp: the
converter raises for every input.  The second conjunct shows the string the
spec intends does parse to the epoch-date UTC timestamp. -/
theorem time_tag_code_bug :
    (∀ (s : String) (fm : Bool), _deserialize_time (.vStr s) fm = .error .conversionError) ∧
    fromisoformat "1970-01-01T00:00:00Z" = some ⟨1970, 1, 1, 0, 0, 0, 0, some 0⟩ := by
  constructor
  · intro s fm
    simp [_deserialize_time, fromisoformat_time_prefix_fails s]
  · rfl

/-- C7: the raw-parse entry point treats only the `array` tag specially,
recursively unwrapping each nested tagged value; for every tagged value
with any other tag — including tags like `bigint` that the full path would
convert, and non-string tags — it returns the raw value verbatim. -/
theorem raw_parse_array_only :
    (∀ (d : List (String × Value)) (v tv : Value),
        d.lookup "prisma__value" = some v → d.lookup "prisma__type" = some tv →
        tv ≠ .vStr "array" → _parse_value (.vObj d) = .ok v) ∧
    (∀ (d : List (String × Value)) (entries : List Value),
        d.lookup "prisma__value" = some (.vList entries) →
        d.lookup "prisma__type" = some (.vStr "array") →
        _parse_value (.vObj d) = (exceptMapList _parse_value entries).map .vList) := by
  constructor
  · intro d v tv hpv htv hne
    have hpos := valueSize_pos (Value.vObj d)
    obtain ⟨g, hg⟩ : ∃ g, valueSize (Value.vObj d) = g + 1 :=
      ⟨valueSize (Value.vObj d) - 1, by omega⟩
    simp only [_parse_value, hg, _parse_valueF, hpv, htv]
    cases tv with
    | vStr t =>
        have ht : ¬(t = "array") := by
          intro hcontra
          exact hne (by rw [hcontra])
        simp [ht]
    | vNull => simp
    | vBool b => simp
    | vInt n => simp
    | vList l2 => simp
    | vObj o2 => simp
    | vDateTime dt => simp
    | vDecimal dd => simp
    | vBytes bs => simp
  · intro d entries hpv htv
    have hfuel : valueSize (Value.vObj d) = valueSizeObj d + 1 := by
      simp only [valueSize]
      omega
    simp only [_parse_value, hfuel, _parse_valueF, hpv, htv]
    rw [if_pos trivial]
    have hcongr : exceptMapList (fun entry => _parse_valueF (valueSizeObj d) entry) entries
        = exceptMapList (fun entry => _parse_value entry) entries := by
      apply exceptMapList_congr
      intro entry hmem
      have h1 : valueSize entry < valueSizeList entries := valueSizeList_lt_of_mem hmem
      have h2 : valueSize (Value.vList entries) < valueSizeObj d := lookup_valueSize hpv
      have h3 : valueSize (Value.vList entries) = 1 + valueSizeList entries := by
        simp [valueSize]
      simp only [_parse_value]
      apply parse_valueF_congr
      · omega
      · exact Nat.le_refl _
    rw [hcongr]
    cases hm : exceptMapList (fun entry => _parse_value entry) entries with
    | error e => simp [Except.map, hm]
    | ok arr => simp [Except.map, hm]

/-- Witness for C7: a `bigint`-tagged leaf passes through verbatim on the
raw path; an `array`-tagged leaf unwraps recursively. -/
theorem raw_parse_array_only_witness :
    _parse_value (.vObj [("prisma__value", .vStr "123"), ("prisma__type", .vStr "bigint")])
      = .ok (.vStr "123") ∧
    _parse_value (.vObj [("prisma__value",
          .vList [.vObj [("prisma__value", .vInt 1), ("prisma__type", .vStr "int")]]),
        ("prisma__type", .vStr "array")])
      = (exceptMapList _parse_value
          [.vObj [("prisma__value", .vInt 1), ("prisma__type", .vStr "int")]]).map .vList :=
  ⟨raw_parse_array_only.1 [("prisma__value", .vStr "123"), ("prisma__type", .vStr "bigint")]
      (.vStr "123") (.vStr "bigint") rfl rfl (by simp),
   raw_parse_array_only.2 [("prisma__value",
          .vList [.vObj [("prisma__value", .vInt 1), ("prisma__type", .vStr "int")]]),
        ("prisma__type", .vStr "array")]
      [.vObj [("prisma__value", .vInt 1), ("prisma__type", .vStr "int")]] rfl rfl⟩

theorem envTruthy_iff (env : Env) (k : String) :
    envTruthy env k = true ↔ ∃ s, env k = some s ∧ s ≠ "" := by
  unfold envTruthy
  cases h : env k with
  | none => simp
  | some s => simp

theorem envTruthy_congr (env1 env2 : Env) (k : String) (h : env1 k = env2 k) :
    envTruthy env1 k = envTruthy env2 k := by
  unfold envTruthy
  rw [h]

/-- C5: `uses_custom_binaries` is true iff each of the 4 engine binaries'
environment variables holds a non-empty value; the CLI tool's override
variable (`PRISMA_CLI_BINARY`) is not consulted: changing it alone never
changes the result. -/
theorem uses_custom_binaries_spec :
    ∀ (env : Env),
      (uses_custom_binaries env = true ↔
        ∀ b ∈ ENGINES, ∃ s, env b.env = some s ∧ s ≠ "") ∧
      (∀ (v : Option String),
        uses_custom_binaries (fun k => if k = "PRISMA_CLI_BINARY" then v else env k)
          = uses_custom_binaries env) := by
  intro env
  constructor
  · constructor
    · intro h
      simp only [uses_custom_binaries] at h
      split_ifs at h with hc
      · simp only [Bool.and_eq_true] at hc
        obtain ⟨⟨⟨h1, h2⟩, h3⟩, h4⟩ := hc
        intro b hb
        simp only [ENGINES, List.mem_cons, List.not_mem_nil, or_false] at hb
        rcases hb with rfl | rfl | rfl | rfl
        · exact (envTruthy_iff env _).1 h1
        · exact (envTruthy_iff env _).1 h2
        · exact (envTruthy_iff env _).1 h3
        · exact (envTruthy_iff env _).1 h4
    · intro h
      have h1 := (envTruthy_iff env "PRISMA_QUERY_ENGINE_BINARY").2
        (h ⟨"query-engine", "PRISMA_QUERY_ENGINE_BINARY"⟩ (by simp [ENGINES]))
      have h2 := (envTruthy_iff env "PRISMA_MIGRATION_ENGINE_BINARY").2
        (h ⟨"migration-engine", "PRISMA_MIGRATION_ENGINE_BINARY"⟩ (by simp [ENGINES]))
      have h3 := (envTruthy_iff env "PRISMA_INTROSPECTION_ENGINE_BINARY").2
        (h ⟨"introspection-engine", "PRISMA_INTROSPECTION_ENGINE_BINARY"⟩ (by simp [ENGINES]))
      have h4 := (envTruthy_iff env "PRISMA_FMT_BINARY").2
        (h ⟨"prisma-fmt", "PRISMA_FMT_BINARY"⟩ (by simp [ENGINES]))
      simp [uses_custom_binaries, h1, h2, h3, h4]
  · intro v
    have e1 := envTruthy_congr (fun k => if k = "PRISMA_CLI_BINARY" then v else env k)
      env "PRISMA_QUERY_ENGINE_BINARY" (by simp)
    have e2 := envTruthy_congr (fun k => if k = "PRISMA_CLI_BINARY" then v else env k)
      env "PRISMA_MIGRATION_ENGINE_BINARY" (by simp)
    have e3 := envTruthy_congr (fun k => if k = "PRISMA_CLI_BINARY" then v else env k)
      env "PRISMA_INTROSPECTION_ENGINE_BINARY" (by simp)
    have e4 := envTruthy_congr (fun k => if k = "PRISMA_CLI_BINARY" then v else env k)
      env "PRISMA_FMT_BINARY" (by simp)
    simp only [uses_custom_binaries, e1, e2, e3, e4]

/-- Witness for C5 at a concrete environment where all four engine
variables are set and non-empty, and the CLI variable is then flipped. -/
theorem uses_custom_binaries_spec_witness :
    ((uses_custom_binaries (fun _ => some "/x") = true ↔
        ∀ b ∈ ENGINES, ∃ s, (fun (_ : String) => some "/x") b.env = some s ∧ s ≠ "")) ∧
    uses_custom_binaries
        (fun k => if k = "PRISMA_CLI_BINARY" then (none : Option String)
          else (fun (_ : String) => some "/x") k)
      = uses_custom_binaries (fun _ => some "/x") :=
  ⟨(uses_custom_binaries_spec (fun _ => some "/x")).1,
   (uses_custom_binaries_spec (fun _ => some "/x")).2 none⟩

/-- C4: if the 4 engine override variables are all set, or no required
binary is missing from the cache, `ensure_cached` performs no download (and
hence no filesystem write — downloads are its only writes) and returns the
cache directory; otherwise it downloads exactly the missing binaries, in
the fixed declared order of `BINARIES`, and returns the cache directory. -/
theorem ensure_cached_downloads_exactly_missing :
    ∀ (dir cliName : String) (env : Env) (pathExists : Binary → Bool),
      ((uses_custom_binaries env = true ∨ ∀ b ∈ BINARIES cliName, pathExists b = true) →
        ensure_cached dir cliName env pathExists = ([], dir)) ∧
      ((uses_custom_binaries env = false ∧ ¬(∀ b ∈ BINARIES cliName, pathExists b = true)) →
        ensure_cached dir cliName env pathExists
          = ((BINARIES cliName).filter (fun b => !(pathExists b)), dir)) := by
  intro dir cliName env pathExists
  constructor
  · intro h
    cases h with
    | inl hc => simp [ensure_cached, hc]
    | inr hall =>
        have hempty : (BINARIES cliName).filter (fun b => !(pathExists b)) = [] := by
          rw [List.filter_eq_nil_iff]
          intro b hb
          simp [hall b hb]
        simp [ensure_cached, hempty]
  · intro h
    obtain ⟨hc, hnall⟩ := h
    have hne : (BINARIES cliName).filter (fun b => !(pathExists b)) ≠ [] := by
      intro heq
      apply hnall
      intro b hb
      have := (List.filter_eq_nil_iff.1 heq) b hb
      simp at this
      exact this
    have hie : ((BINARIES cliName).filter (fun b => !(pathExists b))).isEmpty = false := by
      cases hfe : ((BINARIES cliName).filter (fun b => !(pathExists b))).isEmpty with
      | false => rfl
      | true => exact absurd (List.isEmpty_iff.1 hfe) hne
    simp [ensure_cached, hc, hie]

/-- Witness for C4: with every override set the function performs no
download regardless of cache state; with nothing cached and no overrides it
downloads every binary in declared order. -/
theorem ensure_cached_downloads_exactly_missing_witness :
    ensure_cached "cache" "prisma-cli" (fun _ => some "/custom") (fun _ => false) = ([], "cache") ∧
    ensure_cached "cache" "prisma-cli" (fun _ => none) (fun _ => false)
      = ((BINARIES "prisma-cli").filter (fun _ => !false), "cache") :=
  ⟨(ensure_cached_downloads_exactly_missing "cache" "prisma-cli"
      (fun _ => some "/custom") (fun _ => false)).1 (Or.inl rfl),
   (ensure_cached_downloads_exactly_missing "cache" "prisma-cli"
      (fun _ => none) (fun _ => false)).2
     ⟨rfl, fun hall => Bool.noConfusion
        (hall ⟨"query-engine", "PRISMA_QUERY_ENGINE_BINARY"⟩ (by simp [BINARIES, ENGINES]))⟩⟩

/-- C2 counterexample: an input row that contains a leaf missing its
`prisma__value` sub-field, yet `deserialize_raw_results` reports
`ConversionError`, not `MalformedTagError`, because a field evaluated
earlier in the same row (a `datetime` leaf with an unparsable literal)
raises first. -/
theorem malformed_leaf_error_shadowed_cex :
    deserialize_raw_results
        [[("a", .vObj [("prisma__type", .vStr "datetime"), ("prisma__value", .vStr "notadate")]),
          ("b", .vObj [("prisma__type", .vStr "int")])]]
      = .error .conversionError ∧
    List.lookup "prisma__value" [("prisma__type", Value.vStr "int")] = none ∧
    Err.conversionError ≠ Err.malformedTag :=
  ⟨rfl, rfl, by decide⟩

/-- C2 (amended): for every input containing a row with a leaf value that
lacks the `prisma__type` or `prisma__value` sub-field, the full
deserialization entry point fails outright — it returns no rows at all —
and the error is `MalformedTagError` provided no field of the input raises
a `ConversionError` first (in particular whenever every other leaf converts
successfully); when an earlier field raises a `ConversionError`, that error
is reported instead, still with no partial rows. -/
theorem malformed_leaf_fails_whole_call :
    ∀ (rows : List (List (String × Value))) (row : List (String × Value)),
      row ∈ rows →
      (∃ k d, (k, Value.vObj d) ∈ row ∧
        (d.lookup "prisma__value" = none ∨ d.lookup "prisma__type" = none)) →
      (∀ out, deserialize_raw_results rows ≠ .ok out) ∧
      ((∀ r ∈ rows, ∀ kv ∈ r, deserialize_field false kv ≠ .error .conversionError) →
        deserialize_raw_results rows = .error .malformedTag) := by
  intro rows row hrow hex
  obtain ⟨k, d, hkd, hmal⟩ := hex
  have hfield : deserialize_field false (k, .vObj d) = .error .malformedTag :=
    deserialize_field_malformed false k d hmal
  constructor
  · intro out hok
    simp only [deserialize_raw_results] at hok
    obtain ⟨y, hy⟩ := exceptMapList_ok_mem hok hrow
    simp only [_deserialize_prisma_object] at hy
    obtain ⟨z, hz⟩ := exceptMapList_ok_mem hy hkd
    rw [hfield] at hz
    exact Except.noConfusion hz
  · intro H
    have hclassify : ∀ r ∈ rows, ∀ kv ∈ r, ∀ e2,
        deserialize_field false kv = .error e2 → e2 = .malformedTag := by
      intro r hr kv hkv e2 he2
      cases e2 with
      | malformedTag => rfl
      | conversionError => exact absurd he2 (H r hr kv hkv)
      | fuelExhausted => exact absurd he2 (deserialize_field_no_fuel false kv)
    have hrowdeser : _deserialize_prisma_object row false = .error .malformedTag := by
      simp only [_deserialize_prisma_object]
      exact exceptMapList_error_of_mem hkd hfield
        (fun kv hkv e2 he2 => hclassify row hrow kv hkv e2 he2)
    simp only [deserialize_raw_results]
    apply exceptMapList_error_of_mem hrow hrowdeser
    intro r hr e2 he2
    have he3 : exceptMapList (deserialize_field false) r = .error e2 := he2
    obtain ⟨kv, hkv, hfkv⟩ := exceptMapList_error_mem he3
    exact hclassify r hr kv hkv e2 hfkv

/-- Witness for C2 (amended) at a one-row input whose single leaf lacks
`prisma__value`: the call fails with `MalformedTagError` and yields no
rows. -/
theorem malformed_leaf_fails_whole_call_witness :
    (∀ out, deserialize_raw_results [[("b", .vObj [("prisma__type", .vStr "int")])]] ≠ .ok out) ∧
    deserialize_raw_results [[("b", .vObj [("prisma__type", .vStr "int")])]]
      = .error .malformedTag := by
  have h := malformed_leaf_fails_whole_call
      [[("b", .vObj [("prisma__type", .vStr "int")])]]
      [("b", .vObj [("prisma__type", .vStr "int")])]
      (by simp)
      ⟨"b", [("prisma__type", .vStr "int")], by simp, Or.inl rfl⟩
  refine ⟨h.1, h.2 ?_⟩
  intro r hr kv hkv hcontra
  have hr2 : r = [("b", Value.vObj [("prisma__type", Value.vStr "int")])] :=
    List.mem_singleton.mp hr
  subst hr2
  have hkv2 : kv = ("b", Value.vObj [("prisma__type", Value.vStr "int")]) :=
    List.mem_singleton.mp hkv
  subst hkv2
  have h2 : (Except.error Err.malformedTag : Except Err (String × Value))
      = .error .conversionError := hcontra
  injection h2 with h3
  exact Err.noConfusion h3

/-! ## Decimal round-trip lemmas -/

theorem coefficientDigits_cons_of_ne (c : Char) (l : List Char) (h : (c == '0') = false) :
    coefficientDigits (c :: l) = c :: l := by
  simp [coefficientDigits, List.dropWhile, h]

theorem coefficientDigits_cons_zero (l : List Char) :
    coefficientDigits ('0' :: l) = coefficientDigits l := by
  simp [coefficientDigits, List.dropWhile]

theorem noRedundant_coefficient (ip : List Char) (h : noRedundantLeadingZero ip = true) :
    coefficientDigits ip = ip := by
  cases ip with
  | nil => simp [noRedundantLeadingZero] at h
  | cons c t =>
      by_cases hc : c = '0'
      · subst hc
        cases t with
        | nil => rfl
        | cons d ts => simp [noRedundantLeadingZero] at h
      · have hcb : (c == '0') = false := by simp [hc]
        exact coefficientDigits_cons_of_ne c t hcb

theorem takeWhile_all_eq {p : Char → Bool} (l : List Char) (h : ∀ c ∈ l, p c = true) :
    l.takeWhile p = l ∧ l.dropWhile p = [] := by
  induction l with
  | nil => simp
  | cons c cs ih =>
      have hc := h c (List.mem_cons_self c cs)
      have hrec := ih (fun c2 h2 => h c2 (List.mem_cons_of_mem c h2))
      simp [List.takeWhile, List.dropWhile, hc, hrec.1, hrec.2]

theorem pyDecimalBodyChars_exp_zero (sign : Bool) (ds : List Char) :
    pyDecimalBodyChars ⟨sign, ds, 0⟩ = ds := by
  simp only [pyDecimalBodyChars]
  split_ifs <;> first
    | rfl
    | (exfalso; omega)

theorem pyDecimalBodyChars_pos_frac (sign : Bool) (I F : List Char)
    (hI : 1 ≤ I.length) (hF : 1 ≤ F.length) :
    pyDecimalBodyChars ⟨sign, I ++ F, 0 - (F.length : Int)⟩ = I ++ '.' :: F := by
  simp only [pyDecimalBodyChars]
  have hld : 0 - (F.length : Int) + ((I ++ F).length : Int) = (I.length : Int) := by
    rw [List.length_append]
    push_cast
    ring
  rw [hld]
  split_ifs <;> first
    | (rw [Int.toNat_natCast, List.take_left I F, List.drop_left I F])
    | (exfalso; omega)

theorem pyDecimalBodyChars_small (sign : Bool) (G : List Char) (k flen : Nat)
    (hG : 1 ≤ G.length) (hk : k ≤ 5) (hflen : flen = k + G.length) :
    pyDecimalBodyChars ⟨sign, G, 0 - (flen : Int)⟩
      = '0' :: '.' :: (List.replicate k '0' ++ G) := by
  subst hflen
  simp only [pyDecimalBodyChars]
  have hld : 0 - ((k + G.length : Nat) : Int) + (G.length : Int) = -(k : Int) := by
    push_cast
    ring
  rw [hld]
  have h2n : (-(-(k : Int))).toNat = k := by omega
  split_ifs <;> first
    | (rw [h2n])
    | (exfalso; omega)

theorem decimal_unsigned_roundtrip (cs1 : List Char) (sign : Bool)
    (h : isCanonicalUnsignedDecimal cs1 = true) :
    ∃ dd : PyDecimal, parseDecimalCore cs1 sign = some dd ∧ dd.sign = sign ∧
      pyDecimalBodyChars dd = cs1 := by
  have hsplitw := List.takeWhile_append_dropWhile Char.isDigit cs1
  simp only [isCanonicalUnsignedDecimal] at h
  cases hrest : cs1.dropWhile Char.isDigit with
  | nil =>
      rw [hrest] at h
      have hcs : cs1.takeWhile Char.isDigit = cs1 := by
        rw [hrest] at hsplitw
        simpa using hsplitw
      have hip_ne : ((cs1.takeWhile Char.isDigit).length == 0) = false := by
        cases hip : cs1.takeWhile Char.isDigit with
        | nil => rw [hip] at h; simp [noRedundantLeadingZero] at h
        | cons a b => simp
      refine ⟨⟨sign, coefficientDigits (cs1.takeWhile Char.isDigit), 0⟩, ?_, rfl, ?_⟩
      · simp only [parseDecimalCore, hrest, hip_ne, parseExpPart]
        simp
      · rw [noRedundant_coefficient _ h, pyDecimalBodyChars_exp_zero, hcs]
  | cons rchar rtail =>
      rw [hrest] at h
      simp only at h
      by_cases hdot : rchar = '.'
      · rw [if_pos hdot] at h
        subst hdot
        by_cases hcnd : (rtail.isEmpty || !(rtail.all Char.isDigit)) = true
        · rw [if_pos hcnd] at h
          exact absurd h (by simp)
        · rw [if_neg hcnd] at h
          have hcnd2 : rtail.isEmpty = false ∧ rtail.all Char.isDigit = true := by
            constructor
            · cases he : rtail.isEmpty
              · rfl
              · exact absurd (by simp [he]) hcnd
            · cases ha : rtail.all Char.isDigit
              · exact absurd (by simp [ha]) hcnd
              · rfl
          obtain ⟨hempty, hall⟩ := hcnd2
          have hne : rtail ≠ [] := by
            intro he
            rw [he] at hempty
            simp at hempty
          have hlen : 1 ≤ rtail.length := List.length_pos.2 hne
          have halld : ∀ c ∈ rtail, Char.isDigit c = true := by
            intro c hc
            exact List.all_eq_true.1 hall c hc
          have hfp := takeWhile_all_eq rtail halld
          have hq0 : (((cs1.takeWhile Char.isDigit).length + rtail.length) == 0) = false := by
            rw [beq_eq_false_iff_ne]
            omega
          have hparse1 : parseDecimalCore cs1 sign
              = some ⟨sign, coefficientDigits (cs1.takeWhile Char.isDigit ++ rtail),
                  0 - (rtail.length : Int)⟩ := by
            simp only [parseDecimalCore, hrest, hfp.1, hfp.2, hq0, parseExpPart]
            simp
          cases hip : cs1.takeWhile Char.isDigit with
          | nil =>
              rw [hip] at h
              simp at h
          | cons c t =>
              rw [hip] at h
              by_cases hc0 : c = '0'
              · subst hc0
                cases t with
                | cons d ts => simp at h
                | nil =>
                    simp only at h
                    set k := (rtail.takeWhile (fun c => c == '0')).length with hkdef
                    have hsplitz := List.takeWhile_append_dropWhile (fun c => c == '0') rtail
                    have hrep : rtail.takeWhile (fun c => c == '0') = List.replicate k '0' := by
                      rw [hkdef]
                      exact List.eq_replicate_of_mem (fun b hb => by
                        have hb2 := List.mem_takeWhile_imp hb
                        simpa using hb2)
                    by_cases hkfull : (k == rtail.length) = true
                    · rw [if_pos hkfull] at h
                      have hk6 : rtail.length ≤ 6 := of_decide_eq_true h
                      have hklen : k = rtail.length := by simpa using hkfull
                      have htw : rtail.takeWhile (fun c => c == '0') = rtail :=
                        List.IsPrefix.eq_of_length (List.takeWhile_prefix _) (by rw [← hkdef, hklen])
                      have hdw : rtail.dropWhile (fun c => c == '0') = [] := by
                        have hlen2 := congrArg List.length hsplitz
                        rw [List.length_append, htw] at hlen2
                        have : (rtail.dropWhile (fun c => c == '0')).length = 0 := by omega
                        exact List.length_eq_zero.1 this
                      have hrt_rep : rtail = List.replicate rtail.length '0' := by
                        conv_lhs => rw [← htw, hrep]
                        rw [hklen]
                      have hcoefz : coefficientDigits ('0' :: rtail) = ['0'] := by
                        rw [coefficientDigits_cons_zero]
                        simp [coefficientDigits, hdw]
                      refine ⟨⟨sign, coefficientDigits (['0'] ++ rtail),
                          0 - (rtail.length : Int)⟩, ?_, rfl, ?_⟩
                      · rw [hparse1, hip]
                      · rw [show (['0'] ++ rtail : List Char) = '0' :: rtail from rfl, hcoefz]
                        rw [pyDecimalBodyChars_small sign ['0'] (rtail.length - 1) rtail.length
                          (by simp) (by omega) (by simp; omega)]
                        have hrepl : List.replicate (rtail.length - 1) '0' ++ ['0']
                            = List.replicate rtail.length '0' := by
                          rw [← List.replicate_succ' (rtail.length - 1) '0']
                          congr 1
                          omega
                        rw [hrepl, ← hrt_rep, ← hsplitw, hip, hrest]
                        rfl
                    · rw [if_neg hkfull] at h
                      have hk5 : k ≤ 5 := of_decide_eq_true h
                      have hkle : k ≤ rtail.length := by
                        rw [hkdef]
                        exact (List.takeWhile_prefix _).length_le
                      set G := rtail.dropWhile (fun c => c == '0') with hGdef
                      have hGlen : G.length = rtail.length - k := by
                        have hlen2 := congrArg List.length hsplitz
                        rw [List.length_append] at hlen2
                        omega
                      have hkne : k ≠ rtail.length := by
                        intro he
                        exact hkfull (by simp [he])
                      have hG1 : 1 ≤ G.length := by omega
                      have hGiE : G.isEmpty = false := by
                        cases hG2 : G with
                        | nil => rw [hG2] at hG1; simp at hG1
                        | cons a b => rfl
                      have hcoefG : coefficientDigits ('0' :: rtail) = G := by
                        rw [coefficientDigits_cons_zero]
                        simp [coefficientDigits, ← hGdef, hGiE]
                      refine ⟨⟨sign, coefficientDigits (['0'] ++ rtail),
                          0 - (rtail.length : Int)⟩, ?_, rfl, ?_⟩
                      · rw [hparse1, hip]
                      · rw [show (['0'] ++ rtail : List Char) = '0' :: rtail from rfl, hcoefG]
                        rw [pyDecimalBodyChars_small sign G k rtail.length hG1 hk5 (by omega)]
                        rw [← hrep, hsplitz, ← hsplitw, hip, hrest]
                        rfl
              · have hcb : (c == '0') = false := by simp [hc0]
                have hcoef : coefficientDigits ((c :: t) ++ rtail) = (c :: t) ++ rtail := by
                  rw [List.cons_append]
                  exact coefficientDigits_cons_of_ne c _ hcb
                refine ⟨⟨sign, coefficientDigits ((c :: t) ++ rtail),
                    0 - (rtail.length : Int)⟩, ?_, rfl, ?_⟩
                · rw [hparse1, hip]
                · rw [hcoef]
                  rw [pyDecimalBodyChars_pos_frac sign (c :: t) rtail (by simp) hlen]
                  rw [← hsplitw, hip, hrest]
      · rw [if_neg hdot] at h
        exact absurd h (by simp)

/-- C8 counterexample: the decimal literal `"010.005"` (well-formed for the
`Decimal` constructor) does not round-trip textually: `Decimal` stores the
coefficient without leading zeros, and formatting yields the canonical
`"10.005"`, not the original string. -/
theorem decimal_roundtrip_cex :
    _deserialize_decimal (.vStr "010.005") false
      = .ok (.vDecimal ⟨false, ['1', '0', '0', '0', '5'], -3⟩) ∧
    pyDecimalStr ⟨false, ['1', '0', '0', '0', '5'], -3⟩ = "10.005" ∧
    ("10.005" : String) ≠ "010.005" :=
  ⟨rfl, rfl, by decide⟩

/-- C8 (amended): the conversion is exact — the stored value is the literal
sign, coefficient and exponent with no float rounding — and converting then
formatting returns the original string exactly for every decimal literal
already in the canonical positional form produced by the formatter itself
(no redundant leading zeros, no `+` sign, no exponent notation, adjusted
exponent above `-6`); in particular for `"10.005"`.  Literals outside that
form (e.g. `"010.005"`) reformat to their canonical equivalent instead. -/
theorem decimal_roundtrip_canonical :
    ∀ (s : String), isCanonicalDecimalString s = true →
      ∃ dd : PyDecimal, _deserialize_decimal (.vStr s) false = .ok (.vDecimal dd) ∧
        pyDecimalStr dd = s := by
  intro s h
  simp only [isCanonicalDecimalString] at h
  cases hdata : s.data with
  | nil =>
      rw [hdata] at h
      exact absurd h (by decide)
  | cons c r =>
      rw [hdata] at h
      simp only [isCanonicalDecimalChars] at h
      by_cases hminus : c = '-'
      · rw [if_pos hminus] at h
        subst hminus
        obtain ⟨dd, hparse, hsign, hbody⟩ := decimal_unsigned_roundtrip r true h
        refine ⟨dd, ?_, ?_⟩
        · simp only [_deserialize_decimal, parseDecimal, hdata, parseDecimalChars,
            if_pos rfl, hparse]
          simp
        · simp only [pyDecimalStr, pyDecimalStrChars, hsign, if_pos, hbody]
          rw [← hdata]
          rfl
      · rw [if_neg hminus] at h
        by_cases hplus : c = '+'
        · exfalso
          subst hplus
          have e1 : List.takeWhile Char.isDigit ('+' :: r) = [] := rfl
          have e2 : List.dropWhile Char.isDigit ('+' :: r) = '+' :: r := rfl
          simp only [isCanonicalUnsignedDecimal, e1, e2] at h
          rw [if_neg (by decide : ¬(('+' : Char) = '.'))] at h
          exact absurd h (by simp)
        · obtain ⟨dd, hparse, hsign, hbody⟩ := decimal_unsigned_roundtrip (c :: r) false h
          refine ⟨dd, ?_, ?_⟩
          · simp only [_deserialize_decimal, parseDecimal, hdata, parseDecimalChars,
              if_neg hminus, if_neg hplus, hparse]
          · simp only [pyDecimalStr, pyDecimalStrChars, hsign, Bool.false_eq_true,
              if_false, hbody]
            rw [← hdata]
            rfl

/-- Witness for C8 (amended) at `"10.005"` (testable property 3 of the
spec). -/
theorem decimal_roundtrip_canonical_witness :
    isCanonicalDecimalString "10.005" = true ∧
    ∃ dd : PyDecimal, _deserialize_decimal (.vStr "10.005") false = .ok (.vDecimal dd) ∧
      pyDecimalStr dd = "10.005" :=
  ⟨by decide, decimal_roundtrip_canonical "10.005" (by decide)⟩
